import Mathlib

/-!
Verification of the grand-master-fetcher SEC pipeline scripts.

This file gives a shallow embedding in Lean of the parts of the repository
that the verified properties talk about:

* text primitives shared by several modules (Python lowercasing and the
  `in` substring test, `str.startswith`, `str(int)`);
* the checkpoint/resume decision of `sec_only.py` (`main`, the block that
  reads `sec_checkpoint.json`);
* the window/form filter of the paginator (`utils_sec.within_window`,
  `sec_only.main`) and the variant filter of `grandmaster_sec_v23.py`;
* the time-window resolvers (`utils_sec.et_window_prev0930_to_latest0930`
  and `scripts/util/time_utils.compute_windows`);
* the page loop of `sec_only.main` (budget, error streaks, seek jumps);
* the scorers (`utils_sec.score_record`, `scripts/util/scoring.score_entry`);
* the ban filters (`scripts/util/bans.py`, `utils_sec.banned_by_sic`,
  `utils_sec.banned_by_keywords`);
* the raw/kept bookkeeping of `sec_only.main` and the output writing of
  `grandmaster_sec_v23.main`;
* CSV writing and the final sort of the kept rows (and the unsorted
  `step6_full.json` write of `fetch_sec_and_news.py`).

Timestamps are modelled as integer minutes on a timeline in the configured
(Eastern) timezone, after the normalization the code performs with
`astimezone`; days are integers with day 0 a Monday, so a day `d` is a
weekend day exactly when `d % 7 ≥ 5`, matching Python's `weekday() >= 5`.
Text is modelled as `List Char`; Python `s.lower()` is `lc`, Python's
substring test `a in b` is `strIn a b`.
-/

/-- Python `s.lower()` on text modelled as a character list. -/
def lc (s : List Char) : List Char := s.map Char.toLower

/-- Python `s.upper()`. -/
def uc (s : List Char) : List Char := s.map Char.toUpper

/-- Python's substring test `needle in hay` (true for an empty needle). -/
def strIn (needle : List Char) : List Char → Bool
  | [] => needle.isEmpty
  | c :: t => needle.isPrefixOf (c :: t) || strIn needle t

/-- Python `str(n)` for a natural number (decimal digits). -/
def natStr (n : Nat) : List Char := Nat.toDigits 10 n

/-- Python `str(n)` for an integer. -/
def intStr (n : Int) : List Char :=
  if n < 0 then '-' :: natStr n.natAbs else natStr n.natAbs

/-- Python `dict.get(k, d)` over an association list. -/
def lookupD (m : List (List Char × Int)) (k : List Char) (d : Int) : Int :=
  match m.lookup k with
  | some v => v
  | none => d

namespace SecOnly

/-- The checkpoint object `sec_only.main` reads from `sec_checkpoint.json`.
Fields are optional because `ckpt.get(...)` returns `None` for a missing
key; `next_start_idx` defaults to 0 via `ckpt.get("next_start_idx", 0)`. -/
structure Checkpoint where
  window_start_et : Option String
  window_end_et : Option String
  status : Option String
  next_start_idx : Option Int
deriving DecidableEq

/-- The resume decision of `sec_only.main`: `start_idx = 0` unless a
checkpoint was loaded (`safe_load` yields `none` on a missing or unreadable
file, modelled together with the falsy empty dict) whose recorded window
strings equal the stats window strings and whose status is "incomplete".
Returns the chosen `start_idx` and the `resumed` flag stored in
`stats["resume"]`. -/
def resumeDecision (ckpt : Option Checkpoint) (ws we : String) : Int × Bool :=
  match ckpt with
  | none => (0, false)
  | some c =>
    if c.window_start_et = some ws ∧ c.window_end_et = some we ∧
        c.status = some "incomplete" then
      (c.next_start_idx.getD 0, true)
    else
      (0, false)

end SecOnly

namespace Bans

/-- The module constant `BANNED_KEYWORDS` of `scripts/util/bans.py`. -/
def BANNED_KEYWORDS : List (List Char) :=
  ["casino".toList, "gambl".toList, "betting".toList, "wager".toList,
   "tobacco".toList, "cigarette".toList, "e-cig".toList, "vape".toList,
   "alcohol".toList, "brew".toList, "distill".toList, "spirits".toList,
   "winery".toList, "weapon".toList, "firearm".toList, "ammunition".toList,
   "defense".toList, "adult".toList, "porn".toList, "sex".toList,
   "escort".toList, "payday".toList, "loan shark".toList, "insur".toList,
   "bank".toList, "financial".toList, "lending".toList, "credit".toList]

/-- The deny list scanned against the SIC description in
`is_banned_by_sic`. -/
def DESC_DENY : List (List Char) :=
  ["casino".toList, "tobacco".toList, "cigarette".toList, "brew".toList,
   "distill".toList, "spirits".toList, "weapon".toList, "defense".toList,
   "adult".toList]

/-- `is_banned_by_sic` of `scripts/util/bans.py`. The Python function
computes `int(sic_str) if sic_str else -1` and falls back to -1 on a
`ValueError`; the argument here is the parse result, `none` standing for an
empty or unparseable string. -/
def is_banned_by_sic (sic_str : Option Int) (sic_desc : List Char) : Bool :=
  let sic := sic_str.getD (-1)
  if 6000 ≤ sic ∧ sic ≤ 6999 then true
  else DESC_DENY.any (fun k => strIn k (lc sic_desc))

/-- The scan of `is_banned_by_keywords`, parameterized by the keyword list
(the source applies it to the module constant `BANNED_KEYWORDS`). -/
def anyKeywordIn (kws : List (List Char)) (company : List Char) : Bool :=
  kws.any (fun k => strIn k (lc company))

/-- `is_banned_by_keywords` of `scripts/util/bans.py`. -/
def is_banned_by_keywords (company : List Char) : Bool :=
  anyKeywordIn BANNED_KEYWORDS company

/-- `is_banned` of `scripts/util/bans.py`. -/
def is_banned (company : List Char) (sic : Option Int) (sic_desc : List Char) :
    Bool :=
  is_banned_by_sic sic sic_desc || is_banned_by_keywords company

/-- The numeric-range rule of `is_banned_by_sic` in isolation: the parsed
SIC code lies in 6000-6999. -/
def sicRangeRule (sic_str : Option Int) : Bool :=
  decide (6000 ≤ sic_str.getD (-1) ∧ sic_str.getD (-1) ≤ 6999)

/-- The SIC-description rule of `is_banned_by_sic` in isolation: the
lowercased description contains a deny-list entry. -/
def sicDescRule (sic_desc : List Char) : Bool :=
  DESC_DENY.any (fun k => strIn k (lc sic_desc))

end Bans

namespace UtilsSec

/-- `banned_by_sic` of `utils_sec.py`: `None` is never banned, an exact
match against the banned list bans, otherwise any configured prefix of the
decimal representation bans. -/
def banned_by_sic (sic : Option Int) (prefixes : List (List Char))
    (exact : List Int) : Bool :=
  match sic with
  | none => false
  | some s =>
    if exact.contains s then true
    else prefixes.any (fun p => p.isPrefixOf (intStr s))

/-- `banned_by_keywords` of `utils_sec.py`: the config is a JSON object of
keyword groups (`kw.values()` is iterated, so only the groups matter); a
non-empty term whose lowercase form occurs in the lowercased text bans. -/
def banned_by_keywords (text : List Char) (kw : List (List (List Char))) :
    Bool :=
  kw.any (fun group =>
    group.any (fun term => !term.isEmpty && strIn (lc term) (lc text)))

/-- `within_window` of `utils_sec.py`: after normalizing the entry time to
the configured timezone (our timestamps are already on that timeline) the
test is the closed interval `start_et <= dt_et <= end_et`. -/
def within_window (t start_et end_et : Int) : Bool :=
  decide (start_et ≤ t ∧ t ≤ end_et)

end UtilsSec

/-- Python `weekday() >= 5` on our day numbering (day 0 a Monday). -/
def isWeekend (d : Int) : Bool := decide (5 ≤ d % 7)

/-- The `while weekday >= 5: d -= 1` loops of `utils_sec.py` and
`scripts/util/time_utils.py`, with explicit fuel; a weekend streak is at
most two days long, so any fuel of at least 3 computes the loop's result. -/
def skipBackF : Nat → Int → Int
  | 0, d => d
  | n + 1, d => if isWeekend d then skipBackF n (d - 1) else d

/-- Step back to the most recent non-weekend day at or before `d` (the
`_last_business_day` helper of `scripts/util/time_utils.py` and the `while`
loop over `end_et` in `et_window_prev0930_to_latest0930`). -/
def skipBack (d : Int) : Int := skipBackF 7 d

/-- `_prev_business_date` of `utils_sec.py` (also `_prev_business_day` of
`scripts/util/time_utils.py`): step one day back, then skip weekends. -/
def prevBusinessDate (d : Int) : Int := skipBack (d - 1)

/-- Minutes past midnight of the 09:30 cutoff. -/
def cutoffMin : Int := 570

/-- `et_window_prev0930_to_latest0930` of `utils_sec.py` with
`business_days = True` (as `sec_only.main` calls it), reduced to day
numbers: every datetime the function builds sits at the 09:30 cutoff, so
the pair of days determines the returned pair of instants
`(1440*start_day + 570, 1440*end_day + 570)`.  `now` is day `day` at
`minute` minutes past midnight. -/
def etWindowDays (day minute : Int) : Int × Int :=
  let endDay0 := if cutoffMin ≤ minute then day else day - 1
  let endDay := skipBack endDay0
  let startDay := prevBusinessDate endDay
  (startDay, endDay)

namespace TimeUtils

/-- Result record of `compute_windows` in `scripts/util/time_utils.py`
(primary window, optional weekend tail, weekend-guard flag), instants in
minutes. -/
structure Windows where
  primary_start : Int
  primary_end : Int
  tail_start : Option Int
  tail_end : Option Int
  guard_applied : Bool
deriving DecidableEq

/-- `compute_windows` of `scripts/util/time_utils.py`: on a weekend with
the guard on, primary is Friday 09:30 to Saturday 00:00 with a tail to
Saturday 09:30; otherwise primary is today's 09:30 boundary and exactly one
calendar day before it. -/
def compute_windows (day minute : Int) (weekend_guard : Bool) : Windows :=
  if weekend_guard && isWeekend day then
    let bday := skipBack day
    { primary_start := 1440 * bday + cutoffMin
      primary_end := 1440 * (bday + 1)
      tail_start := some (1440 * (bday + 1))
      tail_end := some (1440 * (bday + 1) + cutoffMin)
      guard_applied := true }
  else
    { primary_start := 1440 * day + cutoffMin - 1440
      primary_end := 1440 * day + cutoffMin
      tail_start := none
      tail_end := none
      guard_applied := false }

end TimeUtils

/-- One feed entry as the paginator sees it: `time` is the result of
`parse_entry_time` (already normalized to the configured timezone, `none`
when no timestamp parses) and `form` the result of `entry_form`. -/
structure AtomEntry where
  time : Option Int
  form : List Char
deriving DecidableEq

namespace SecOnly

/-- The `allowed_forms` set of `sec_only.main`. -/
def allowed_forms : List (List Char) :=
  ["8-K".toList, "8-K/A".toList, "6-K".toList, "6-K/A".toList,
   "10-Q".toList, "10-Q/A".toList, "10-K".toList, "10-K/A".toList,
   "SC 13D".toList, "SC 13D/A".toList, "SC 13G".toList, "SC 13G/A".toList,
   "Form 3".toList, "3/A".toList, "Form 4".toList, "4/A".toList]

/-- The per-entry filter of `sec_only.main` (the two `continue` guards at
the start of the processing loop): an entry goes on to enrichment, dedup,
ban filtering and scoring exactly when its time parsed, `within_window`
holds, and its form is in `allowed_forms`. -/
def keepsForProcessing (start_et end_et : Int) (e : AtomEntry) : Bool :=
  match e.time with
  | none => false
  | some t =>
    UtilsSec.within_window t start_et end_et && allowed_forms.contains e.form

end SecOnly

namespace V23

/-- The local `within_window` of `grandmaster_sec_v23.main`:
`(et_dt >= start) and (et_dt < end)` - a half-open interval. -/
def within_window (et_dt start_t end_t : Int) : Bool :=
  decide (start_t ≤ et_dt) && decide (et_dt < end_t)

/-- The strict filter of `grandmaster_sec_v23.main`: an entry reaches
enrichment and scoring exactly when `parse_edgar_datetime_et` succeeded
(the bare `except: continue`), the local `within_window` holds, and the
form is in `forms_supported`. -/
def strictFilter (forms_ok : List (List Char)) (start_et end_et : Int)
    (e : AtomEntry) : Bool :=
  match e.time with
  | none => false
  | some t => within_window t start_et end_et && forms_ok.contains e.form

end V23

namespace UtilsSec

/-- Python `\"\\w\"` word characters for the boundaries of the
`item_codes_from_text` pattern (ASCII inputs). -/
def isWordChar (c : Char) : Bool := c.isAlphanum || c = '_'

/-- Does an item code `[1-9]\\.\\d\\d` with a trailing word boundary start
here, the leading boundary being checked by the caller? -/
def itemHead : List Char → Option (List Char × List Char)
  | c1 :: '.' :: c3 :: c4 :: rest =>
    if ('1' ≤ c1 ∧ c1 ≤ '9') ∧ c3.isDigit ∧ c4.isDigit ∧
        (rest.head?.all fun c => !isWordChar c) then
      some ([c1, '.', c3, c4], rest)
    else none
  | _ => none

/-- The scan of `re.findall` for `item_codes_from_text` of `utils_sec.py`:
left to right, non-overlapping, `prev` the character before the current
position (for the leading word boundary). -/
def itemScan (prev : Option Char) (s : List Char) : List (List Char) :=
  match s with
  | [] => []
  | c :: t =>
    if h : (prev.all fun p => !isWordChar p) ∧ (itemHead (c :: t)).isSome then
      match hm : itemHead (c :: t) with
      | some (code, rest) => code :: itemScan (some code.getLast!) rest
      | none => by rw [hm] at h; simp at h
    else itemScan (some c) t
termination_by s.length
decreasing_by
  · simp only [itemHead] at hm
    split at hm
    · split at hm
      · simp_all; omega
      · simp_all
    · simp_all
  · simp

/-- `item_codes_from_text` of `utils_sec.py`. -/
def item_codes_from_text (text : List Char) : List (List Char) :=
  itemScan none text

/-- Python `form.replace(\"/A\", \"\")` as `score_record` uses it. -/
def stripSlashA : List Char → List Char
  | '/' :: 'A' :: t => stripSlashA t
  | c :: t => c :: stripSlashA t
  | [] => []

/-- The scoring configuration `config/scoring.json` as `score_record`
reads it (`dict.get` defaults applied by the accessors below). -/
structure ScoringCfg where
  form_weights : List (List Char × Int)
  item_boosts_8k : List (List Char × Int)
  positive_keywords : List (List Char)
  pos_keyword_boost : Int
  negative_keywords : List (List Char)
  neg_keyword_penalty : Int
  dilution_flags : List (List Char)
  dilution_penalty : Int
  form4_pos_boost_terms : List (List Char)
  form4_pos_boost : Int

/-- The record fields `score_record` consults. -/
structure ScoreRec where
  form : List Char
  title : List Char
  summary : List Char

/-- `score_record` of `utils_sec.py`: form base weight (falling back to the
weight of the form without its `/A` suffix), per-item 8-K boosts summed per
`findall` occurrence, one-shot positive / negative / dilution keyword
contributions, a Form 4 term boost, and a final `max(score, 0)`. -/
def score_record (rec : ScoreRec) (scoring : ScoringCfg) : Int :=
  let form := uc rec.form
  let base :=
    lookupD scoring.form_weights form
      (lookupD scoring.form_weights (stripSlashA form) 0)
  let text := lc (rec.title ++ [' '] ++ rec.summary)
  let s0 : Int := 0 + base
  let s1 :=
    if ("8-K".toList).isPrefixOf form then
      (item_codes_from_text text).foldl
        (fun s item => s + lookupD scoring.item_boosts_8k item 0) s0
    else s0
  let s2 :=
    if scoring.positive_keywords.any (fun pk => strIn pk text) then
      s1 + scoring.pos_keyword_boost
    else s1
  let s3 :=
    if scoring.negative_keywords.any (fun nk => strIn nk text) then
      s2 - scoring.neg_keyword_penalty
    else s2
  let s4 :=
    if scoring.dilution_flags.any (fun df => strIn df text) then
      s3 - scoring.dilution_penalty
    else s3
  let s5 :=
    if form ∈ [("FORM 4".toList), ("4".toList), ("4/A".toList),
        ("Form 4".toList)] then
      if scoring.form4_pos_boost_terms.any (fun t => strIn t text) then
        s4 + scoring.form4_pos_boost
      else s4
    else s4
  max s5 0

end UtilsSec

namespace Scoring

/-- The weight tables of `scripts/util/scoring.py`'s `score_entry`
(`cfg[\"weights\"]` with its `base`, `eightk_items`, `form4` and
`keywords` sub-tables, plus the top-level keyword lists). -/
structure Cfg where
  weights_base : List (List Char × Int)
  weights_eightk_items : List (List Char × Int)
  weights_form4 : List (List Char × Int)
  keywords_positive : Int
  keywords_negative : Int
  positive_keywords : List (List Char)
  negative_keywords : List (List Char)

/-- The entry fields `score_entry` consults. -/
structure Entry where
  form : List Char
  eightk_items : List (List Char)
  form4_codes : List (List Char)
  title : List Char
  summary : List Char
  doc_text_excerpt : List Char

/-- `score_entry` of `scripts/util/scoring.py`: base weight, per-item and
per-code additions, then for every configured positive (negative) keyword
found in the lowercased text blob the positive (negative) keyword weight is
added once per keyword.  There is no clamp at the end. -/
def score_entry (e : Entry) (cfg : Cfg) : Int :=
  let s0 := lookupD cfg.weights_base e.form 0
  let s1 :=
    if e.form = "8-K".toList then
      e.eightk_items.foldl
        (fun s it => s + lookupD cfg.weights_eightk_items it 0) s0
    else s0
  let s2 :=
    if e.form = "4".toList then
      e.form4_codes.foldl
        (fun s c => s + lookupD cfg.weights_form4 c 0) s1
    else s1
  let lb := lc (e.title ++ [' '] ++ e.summary ++ [' '] ++ e.doc_text_excerpt)
  let s3 := cfg.positive_keywords.foldl
    (fun s kw => if strIn (lc kw) lb then s + cfg.keywords_positive else s) s2
  let s4 := cfg.negative_keywords.foldl
    (fun s kw => if strIn (lc kw) lb then s + cfg.keywords_negative else s) s3
  s4

end Scoring

namespace SecOnly

/-- The configuration values driving the page loop of `sec_only.main`. -/
structure PagCfg where
  max_pages : Nat
  page_budget : Nat
  max_empty_pages : Nat
  use_seek : Bool
  end_et : Int
  extended_stop_et : Int

/-- The mutable state of the page loop (the stats counters it updates, the
streak and page counters, the feed offset).  `fetched_offsets` records the
`start` parameter of every URL the loop requests, in order. -/
structure PagState where
  start_idx : Int
  empty_streak : Nat
  this_pages : Nat
  pages_fetched : Nat
  atom_fetch_errors : Nat
  crossed_end : Bool
  hit_boundary : Bool
  hit_extended_boundary : Bool
  last_oldest : Option Int
  fetched_offsets : List Int
deriving DecidableEq

/-- The loop state at the top of `main`'s `for` loop. -/
def initState : PagState :=
  { start_idx := 0, empty_streak := 0, this_pages := 0, pages_fetched := 0
    atom_fetch_errors := 0, crossed_end := false, hit_boundary := false
    hit_extended_boundary := false, last_oldest := none, fetched_offsets := [] }

/-- Why the attempt ended: page budget hit, failure/empty streak reached
the `max_empty_pages` threshold, the extended stop boundary was crossed, or
the `for p in range(max_pages)` range was exhausted.  Every one of these is
a `break` or normal loop exit in the source - data returned through
`stats`, not an exception. -/
inductive StopReason
  | budget
  | emptyStreak
  | extendedBoundary
  | pageLimit
deriving DecidableEq

/-- `bounds` of `sec_only.main`: newest and oldest parseable entry time on
a page. -/
def bounds (entries : List AtomEntry) : Option Int × Option Int :=
  entries.foldl
    (fun (acc : Option Int × Option Int) e =>
      match e.time with
      | none => acc
      | some t =>
        (match acc.1 with
         | none => some t
         | some nw => some (max nw t),
         match acc.2 with
         | none => some t
         | some ol => some (min ol t)))
    (none, none)

/-- The seek-mode stride of `sec_only.main`: 2000 pages when the gap above
the window end exceeds 4 hours, 1000 above 2 hours, 500 above 1 hour,
otherwise 200 (gap in minutes here). -/
def seekJump (gapMin : Int) : Int :=
  if 240 < gapMin then 2000
  else if 120 < gapMin then 1000
  else if 60 < gapMin then 500
  else 200

/-- Outcome of one iteration of the loop body: stop with a reason, or
continue with an updated state. -/
inductive StepRes
  | stop (st : PagState) (r : StopReason)
  | next (st : PagState)
deriving DecidableEq

/-- One iteration of the page loop of `sec_only.main`, driven by the fetch
outcome `o` (`none` when `fetch` returned `None` after its retry loop,
otherwise the parsed entries).  Mirrors the source order: budget check,
fetch bookkeeping, failed-fetch branch, empty-page branch, `bounds`, seek
jump or boundary crossing, extended-stop break, offset advance. -/
def loopStep (cfg : PagCfg) (o : Option (List AtomEntry)) (st : PagState) :
    StepRes :=
  if cfg.page_budget ≤ st.this_pages then .stop st .budget
  else
    let st := { st with
      pages_fetched := st.pages_fetched + 1
      this_pages := st.this_pages + 1
      fetched_offsets := st.fetched_offsets ++ [st.start_idx] }
    match o with
    | none =>
      let st := { st with
        atom_fetch_errors := st.atom_fetch_errors + 1
        empty_streak := st.empty_streak + 1 }
      if cfg.max_empty_pages ≤ st.empty_streak then .stop st .emptyStreak
      else .next st
    | some entries =>
      let st := { st with empty_streak := 0 }
      if entries.length = 0 then
        let st := { st with empty_streak := st.empty_streak + 1 }
        if cfg.max_empty_pages ≤ st.empty_streak then .stop st .emptyStreak
        else .next st
      else
        let nwol := bounds entries
        let st := { st with last_oldest := nwol.2 }
        match nwol.2 with
        | some oldest =>
          if !st.crossed_end && cfg.use_seek && decide (cfg.end_et < oldest)
          then
            .next { st with
              start_idx := st.start_idx + seekJump (oldest - cfg.end_et) }
          else
            let st :=
              if !st.crossed_end && cfg.use_seek then
                { st with crossed_end := true, hit_boundary := true }
              else st
            if oldest < cfg.extended_stop_et then
              .stop { st with hit_extended_boundary := true }
                .extendedBoundary
            else .next { st with start_idx := st.start_idx + entries.length }
        | none =>
          .next { st with start_idx := st.start_idx + entries.length }

/-- The `for p in range(max_pages)` loop of `sec_only.main`, the network
modelled as an oracle `feed` giving each iteration's fetch outcome; `fuel`
is the number of loop iterations left. -/
def runLoopAux (cfg : PagCfg) (feed : Nat → Option (List AtomEntry)) :
    Nat → Nat → PagState → PagState × StopReason
  | 0, _, st => (st, .pageLimit)
  | fuel + 1, p, st =>
    match loopStep cfg (feed p) st with
    | .stop st r => (st, r)
    | .next st => runLoopAux cfg feed fuel (p + 1) st

/-- The whole attempt: `max_pages` iterations starting from the fresh
state. -/
def runLoop (cfg : PagCfg) (feed : Nat → Option (List AtomEntry)) :
    PagState × StopReason :=
  runLoopAux cfg feed cfg.max_pages 0 initState

/-- A record as `sec_only.main` builds it just before dedup and ban
filtering: `key` is the `make_key` hash, `sic` the enriched SIC code, and
`blob` the joined title / summary / industry / company text handed to
`banned_by_keywords`. -/
structure SecRec where
  key : List Char
  sic : Option Int
  blob : List Char
deriving DecidableEq

/-- The running collections of `sec_only.main`: the seen-keys set,
`raw_rows`, `kept_rows` and the two ban counters. -/
structure RunState where
  seen : List (List Char)
  raw : List SecRec
  kept : List SecRec
  banned_sic : Nat
  banned_kw : Nat
deriving DecidableEq

/-- The combined ban test of `sec_only.main`:
`banned_by_sic(sic, ban_pref, ban_exact) or banned_by_keywords(blob, ban_kw)`. -/
def recBanned (bp : List (List Char)) (bx : List Int)
    (bk : List (List (List Char))) (r : SecRec) : Bool :=
  UtilsSec.banned_by_sic r.sic bp bx || UtilsSec.banned_by_keywords r.blob bk

/-- The tail of the per-entry processing loop of `sec_only.main`: skip a
seen key, otherwise record the key, append to `raw_rows`, then either bump
a ban counter (`banned_sic` when the SIC rule fired, else `banned_kw`) or
score and append to `kept_rows`. -/
def processOne (bp : List (List Char)) (bx : List Int)
    (bk : List (List (List Char))) (st : RunState) (r : SecRec) : RunState :=
  if st.seen.contains r.key then st
  else
    let st := { st with seen := r.key :: st.seen, raw := st.raw ++ [r] }
    if recBanned bp bx bk r then
      if UtilsSec.banned_by_sic r.sic bp bx then
        { st with banned_sic := st.banned_sic + 1 }
      else { st with banned_kw := st.banned_kw + 1 }
    else { st with kept := st.kept ++ [r] }

/-- Processing of a run's worth of in-window records, starting from the
empty collections (fresh `seen` registry). -/
def processAll (bp : List (List Char)) (bx : List Int)
    (bk : List (List (List Char))) (rs : List SecRec) : RunState :=
  rs.foldl (processOne bp bx bk)
    { seen := [], raw := [], kept := [], banned_sic := 0, banned_kw := 0 }

end SecOnly

/-- Descending order on the `(score, timestamp-string)` sort key of
`kept_rows.sort(key=lambda r: (r[score], r[timestamp]), reverse=True)`:
`a` precedes `b` when `a`'s key is lexicographically at least `b`'s, string
order being Python's lexicographic character comparison. -/
def keyDescRel (key : α → Int × List Char) (a b : α) : Prop :=
  (key b).1 < (key a).1 ∨ ((key b).1 = (key a).1 ∧ (key b).2 ≤ (key a).2)

instance (key : α → Int × List Char) : DecidableRel (keyDescRel key) :=
  fun a b => by unfold keyDescRel; infer_instance

instance (key : α → Int × List Char) : IsTotal α (keyDescRel key) where
  total a b := by
    unfold keyDescRel
    rcases lt_trichotomy (key a).1 (key b).1 with h | h | h
    · exact Or.inr (Or.inl h)
    · rcases le_total (key a).2 (key b).2 with h2 | h2
      · exact Or.inr (Or.inr ⟨h, h2⟩)
      · exact Or.inl (Or.inr ⟨h.symm, h2⟩)
    · exact Or.inl (Or.inl h)

instance (key : α → Int × List Char) : IsTrans α (keyDescRel key) where
  trans a b c hab hbc := by
    unfold keyDescRel at *
    rcases hab with h1 | ⟨h1, h2⟩ <;> rcases hbc with h3 | ⟨h3, h4⟩
    · exact Or.inl (lt_trans h3 h1)
    · exact Or.inl (h3 ▸ h1)
    · exact Or.inl (lt_of_lt_of_eq h3 h1)
    · exact Or.inr ⟨h3.trans h1, le_trans h4 h2⟩

/-- A generic descending sort on the `(score, timestamp-string)` key, the
shape of `kept_rows.sort(key=lambda r: (r[score], r[timestamp]),
reverse=True)` used by `sec_only.py` line 263, `grandmaster_sec_v23.py`
line 84 and `fetch_sec_only.py` line 259: a stable sort placing larger
keys first. -/
def sortByKeyDesc (key : α → Int × List Char) (l : List α) : List α :=
  l.insertionSort (keyDescRel key)

/-- A kept row as the final sort and the writers see it: its score, its
filing timestamp string, and an identifier standing for the remaining
fields. -/
structure Scored where
  score : Int
  ts : List Char
  id : Nat
deriving DecidableEq

/-- The sort of `kept_rows` before any output is written. -/
def sortKeptRows : List Scored → List Scored :=
  sortByKeyDesc fun r => (r.score, r.ts)

namespace V23

/-- The fields of an enriched `grandmaster_sec_v23` entry that ban
filtering and output writing consult. -/
structure Rec where
  company : List Char
  sic : Option Int
  sic_desc : List Char
  score : Int
  updated_et : List Char
deriving DecidableEq

/-- The ban predicate applied per enriched entry in
`grandmaster_sec_v23.main` (the `is_banned` applied to the entry's
fields). -/
def recBanned (e : Rec) : Bool :=
  Bans.is_banned e.company e.sic e.sic_desc

/-- The kept list of `grandmaster_sec_v23.main`: entries the ban filter
rejects get `banned = True` and are dropped (`continue`), the rest are
scored and collected. -/
def keptOf (enriched : List Rec) : List Rec :=
  enriched.filter fun e => !recBanned e

/-- What `grandmaster_sec_v23.main` writes to `sec_filings_raw.json`: the
sorted `kept` list itself - `json.dump(kept, open(raw_path, ...))`. -/
def rawFileContents (enriched : List Rec) : List Rec :=
  sortByKeyDesc (fun e => (e.score, e.updated_et)) (keptOf enriched)

/-- What `grandmaster_sec_v23.main` writes to
`sec_filings_snapshot.json` (the projected rows of the sorted kept
list). -/
def snapshotContents (enriched : List Rec) : List Rec :=
  sortByKeyDesc (fun e => (e.score, e.updated_et)) (keptOf enriched)

end V23

/-- The fixed CSV column list `cols` shared by `sec_only.main` and
`grandmaster_sec_v23.main`. -/
def csvCols : List (List Char) :=
  ["filing_datetime".toList, "form".toList, "company".toList,
   "ticker".toList, "cik".toList, "industry".toList, "sic".toList,
   "title".toList, "score".toList, "link".toList]

/-- One snapshot row with the ten output fields (score kept numeric; the
writers render it in decimal). -/
structure SnapRow where
  filing_datetime : List Char
  form : List Char
  company : List Char
  ticker : List Char
  cik : List Char
  industry : List Char
  sic : List Char
  title : List Char
  score : Int
  link : List Char
deriving DecidableEq

/-- The cells of one CSV data row, in the fixed column order. -/
def rowCells (r : SnapRow) : List (List Char) :=
  [r.filing_datetime, r.form, r.company, r.ticker, r.cik, r.industry,
   r.sic, r.title, intStr r.score, r.link]

namespace SecOnly

/-- The rows of the CSV `sec_only.main` writes: a `DataFrame` of the kept
rows when there are any, else an empty `DataFrame` carrying only the
columns; after `reindex(columns=cols)`, `to_csv` emits the header and one
line per record. -/
def csvRows (kept : List SnapRow) : List (List (List Char)) :=
  if kept.isEmpty then [csvCols] else csvCols :: kept.map rowCells

end SecOnly

namespace V23

/-- The rows of the CSV `grandmaster_sec_v23.main` writes:
`DictWriter.writeheader()` then one `writerow` per kept row. -/
def csvRows (kept : List SnapRow) : List (List (List Char)) :=
  csvCols :: kept.map rowCells

end V23

namespace SecAndNews

/-- One collected record of `fetch_sec_and_news.py`'s SEC step, with the
fields its de-dup key and output consult: the key is
`(ticker, form, cik)`, and `score` / `accepted_ts` are what an output sort
would order by - none is applied. -/
structure NewsRec where
  ticker : List Char
  form : List Char
  cik : List Char
  accepted_ts : List Char
  score : Int
deriving DecidableEq

/-- The de-dup loop of `fetch_sec_and_news.py` (lines 284-288): first
occurrence of each `(ticker, form, cik)` key is kept, in collection
order. -/
def dedupAux (seen : List (List Char × List Char × List Char)) :
    List NewsRec → List NewsRec
  | [] => []
  | r :: t =>
    if seen.contains (r.ticker, r.form, r.cik) then dedupAux seen t
    else r :: dedupAux ((r.ticker, r.form, r.cik) :: seen) t

/-- What `fetch_sec_and_news.py` dumps to `step6_full.json` (line 291):
the deduped collected records, exactly in collection order - no
`(score, timestamp)` sort is applied between collection and writing. -/
def step6FullContents (collected : List NewsRec) : List NewsRec :=
  dedupAux [] collected

end SecAndNews


section Theorems

/-- C1: on startup the paginator resumes from the checkpoint's recorded
next page offset exactly when the recorded window matches the new run's
window and the status is "incomplete"; in every other case (missing or
unreadable checkpoint, mismatched window, status "complete") `start_idx`
is 0. -/
theorem checkpoint_resume_iff_window_matches
    (ckpt : Option SecOnly.Checkpoint) (ws we : String) :
    ((SecOnly.resumeDecision ckpt ws we).2 = true ↔
      ∃ c, ckpt = some c ∧ c.window_start_et = some ws ∧
        c.window_end_et = some we ∧ c.status = some "incomplete")
    ∧ (∀ c, ckpt = some c → c.window_start_et = some ws →
        c.window_end_et = some we → c.status = some "incomplete" →
        (SecOnly.resumeDecision ckpt ws we).1 = c.next_start_idx.getD 0)
    ∧ ((SecOnly.resumeDecision ckpt ws we).2 = false →
        (SecOnly.resumeDecision ckpt ws we).1 = 0) := by
  match ckpt with
  | none => simp [SecOnly.resumeDecision]
  | some c =>
    by_cases h : c.window_start_et = some ws ∧ c.window_end_et = some we ∧
        c.status = some "incomplete"
    · simp [SecOnly.resumeDecision, h]
    · have hval : SecOnly.resumeDecision (some c) ws we = (0, false) := by
        simp [SecOnly.resumeDecision, h]
      rw [hval]
      refine ⟨?_, ?_, fun _ => rfl⟩
      · constructor
        · intro hfalse; exact absurd hfalse (by decide)
        · rintro ⟨c2, hc2, h1, h2, h3⟩
          cases Option.some.inj hc2
          exact absurd ⟨h1, h2, h3⟩ h
      · rintro c2 hc2 h1 h2 h3
        cases Option.some.inj hc2
        exact absurd ⟨h1, h2, h3⟩ h

/-- Witness for C1 at a concrete matching checkpoint and a concrete
mismatching one. -/
theorem checkpoint_resume_witness :
    (SecOnly.resumeDecision
      (some ⟨some "a", some "b", some "incomplete", some 5⟩) "a" "b").1 = 5
    ∧ (SecOnly.resumeDecision
      (some ⟨some "a", some "b", some "complete", some 5⟩) "a" "b").1 = 0 := by
  constructor
  · have h := (checkpoint_resume_iff_window_matches
      (some ⟨some "a", some "b", some "incomplete", some 5⟩) "a" "b").2.1
      ⟨some "a", some "b", some "incomplete", some 5⟩ rfl rfl rfl rfl
    simpa using h
  · have h := (checkpoint_resume_iff_window_matches
      (some ⟨some "a", some "b", some "complete", some 5⟩) "a" "b").2.2
      (by decide)
    exact h

/-- C6: the ban predicate of scripts/util/bans.py fires exactly when one of
its three independent rules fires (numeric SIC range, SIC-description deny
list, keyword substring over the record's text), and every SIC code in
6000-6999 is banned. -/
theorem is_banned_iff_some_rule :
    (∀ company sic desc,
      Bans.is_banned company sic desc = true ↔
        (Bans.sicRangeRule sic = true ∨ Bans.sicDescRule desc = true ∨
          Bans.is_banned_by_keywords company = true))
    ∧ (∀ company n desc, 6000 ≤ n → n ≤ 6999 →
        Bans.is_banned company (some n) desc = true) := by
  constructor
  · intro company sic desc
    unfold Bans.is_banned Bans.is_banned_by_sic Bans.sicRangeRule
      Bans.sicDescRule
    by_cases h : 6000 ≤ sic.getD (-1) ∧ sic.getD (-1) ≤ 6999 <;>
      simp [h, Bool.or_eq_true]
  · intro company n desc h1 h2
    unfold Bans.is_banned Bans.is_banned_by_sic
    simp [Option.getD, h1, h2]

/-- Witness for C6 at the concrete banned SIC code 6500. -/
theorem is_banned_witness :
    ((6000:Int) ≤ 6500 ∧ (6500:Int) ≤ 6999)
    ∧ Bans.is_banned "Acme".toList (some 6500) "Software".toList = true := by
  refine ⟨⟨by norm_num, by norm_num⟩, ?_⟩
  exact is_banned_iff_some_rule.2 "Acme".toList 6500 "Software".toList
    (by norm_num) (by norm_num)

/-- C7: both keyword ban scans are monotone in the keyword list - any
record banned under a keyword set stays banned under a superset, so adding
a keyword can only move records from kept to banned. -/
theorem keyword_ban_monotone :
    (∀ (K Kp : List (List (List Char))) (text : List Char),
      (∀ t, t ∈ K.flatten → t ∈ Kp.flatten) →
      UtilsSec.banned_by_keywords text K = true →
      UtilsSec.banned_by_keywords text Kp = true)
    ∧ (∀ (K Kp : List (List Char)) (company : List Char),
      (∀ t, t ∈ K → t ∈ Kp) →
      Bans.anyKeywordIn K company = true →
      Bans.anyKeywordIn Kp company = true) := by
  constructor
  · intro K Kp text hsub hK
    unfold UtilsSec.banned_by_keywords at *
    rw [List.any_eq_true] at hK ⊢
    obtain ⟨g, hg, hgany⟩ := hK
    rw [List.any_eq_true] at hgany
    obtain ⟨term, hterm, hp⟩ := hgany
    obtain ⟨g2, hg2, ht2⟩ :=
      List.mem_flatten.1 (hsub term (List.mem_flatten.2 ⟨g, hg, hterm⟩))
    exact ⟨g2, hg2, List.any_eq_true.2 ⟨term, ht2, hp⟩⟩
  · intro K Kp company hsub hK
    unfold Bans.anyKeywordIn at *
    rw [List.any_eq_true] at hK ⊢
    obtain ⟨k, hk, hp⟩ := hK
    exact ⟨k, hsub k hk, hp⟩

/-- Witness for C7: a record banned under a one-keyword list stays banned
after a keyword is added. -/
theorem keyword_ban_monotone_witness :
    UtilsSec.banned_by_keywords "Big Bank Corp".toList
      [["bank".toList], ["casino".toList]] = true
    ∧ Bans.anyKeywordIn ["bank".toList, "casino".toList]
      "Big Bank Corp".toList = true := by
  constructor
  · exact keyword_ban_monotone.1 [["bank".toList]] _ _
      (by intro t ht; simp [List.flatten] at ht ⊢; tauto) (by decide)
  · exact keyword_ban_monotone.2 ["bank".toList] _ _
      (by intro t ht; simp at ht ⊢; tauto) (by decide)

/-- C5 counterexample: `score_entry` of scripts/util/scoring.py has no
floor clamp, so a configuration whose negative keyword weight dominates
yields a negative score, refuting "for every input record and every scoring
configuration, the scorer returns a non-negative integer". -/
theorem score_entry_negative_counterexample :
    Scoring.score_entry
      ⟨"X".toList, [], [], "bad news".toList, [], []⟩
      ⟨[], [], [], 0, -5, [], ["bad".toList]⟩ = -5
    ∧ Scoring.score_entry
      ⟨"X".toList, [], [], "bad news".toList, [], []⟩
      ⟨[], [], [], 0, -5, [], ["bad".toList]⟩ < 0 := by
  constructor
  · decide
  · decide

/-- C5 amended: `score_record` of utils_sec.py ends in `max(score, 0)` and
is therefore non-negative for every record and configuration, while
`score_entry` of scripts/util/scoring.py has no final clamp and can return
a negative score. -/
theorem score_record_floor_clamped :
    (∀ rec scoring, 0 ≤ UtilsSec.score_record rec scoring)
    ∧ (∃ e cfg, Scoring.score_entry e cfg < 0) := by
  constructor
  · intro rec scoring
    unfold UtilsSec.score_record
    exact le_max_right _ _
  · exact ⟨⟨"X".toList, [], [], "offering ahead".toList, [], []⟩,
      ⟨[], [], [], 0, -7, [], ["offering".toList]⟩, by decide⟩

/-- C9: both CSV writers emit the fixed header row even when zero records
are kept - the file then holds exactly the header and no data rows - and in
general the header leads and the row count is one plus the kept count. -/
theorem empty_csv_header_only :
    SecOnly.csvRows [] = [csvCols] ∧ V23.csvRows [] = [csvCols]
    ∧ (∀ kept, (SecOnly.csvRows kept).head? = some csvCols
        ∧ (SecOnly.csvRows kept).length = kept.length + 1
        ∧ (V23.csvRows kept).head? = some csvCols
        ∧ (V23.csvRows kept).length = kept.length + 1) := by
  refine ⟨rfl, rfl, ?_⟩
  intro kept
  cases kept <;> simp [SecOnly.csvRows, V23.csvRows]

/-- The de-dup of `fetch_sec_and_news.py` only drops repeated keys: its
output is a sublist of the collected records, so collection order is
preserved and no reordering happens before the dump. -/
theorem dedupAux_sublist :
    ∀ (l : List SecAndNews.NewsRec)
      (seen : List (List Char × List Char × List Char)),
      (SecAndNews.dedupAux seen l).Sublist l := by
  intro l
  induction l with
  | nil => intro seen; simp [SecAndNews.dedupAux]
  | cons r t ih =>
    intro seen
    simp only [SecAndNews.dedupAux]
    split_ifs
    · exact (ih seen).cons r
    · exact (ih _).cons₂ r

/-- C10 counterexample: the `fetch_sec_and_news.py` variant writes its
deduped kept records to `step6_full.json` without any sort - with two
distinct-key records collected in ascending score order, the written list
keeps that order and violates the claimed adjacent-pair descending
property, refuting "in every pipeline variant ... the list of kept records
is sorted in descending lexicographic order of (score, filing
timestamp)". -/
theorem step6_output_not_sorted :
    SecAndNews.step6FullContents
      [⟨"AAA".toList, "8-K".toList, "1".toList,
          "2025-01-06T00:00:00Z".toList, 1⟩,
        ⟨"BBB".toList, "8-K".toList, "2".toList,
          "2025-01-06T00:00:00Z".toList, 9⟩] =
      [⟨"AAA".toList, "8-K".toList, "1".toList,
          "2025-01-06T00:00:00Z".toList, 1⟩,
        ⟨"BBB".toList, "8-K".toList, "2".toList,
          "2025-01-06T00:00:00Z".toList, 9⟩]
    ∧ ¬ List.Chain'
        (fun a b : SecAndNews.NewsRec =>
          a.score > b.score ∨
            (a.score = b.score ∧ b.accepted_ts ≤ a.accepted_ts))
        (SecAndNews.step6FullContents
          [⟨"AAA".toList, "8-K".toList, "1".toList,
              "2025-01-06T00:00:00Z".toList, 1⟩,
            ⟨"BBB".toList, "8-K".toList, "2".toList,
              "2025-01-06T00:00:00Z".toList, 9⟩]) := by
  have he : SecAndNews.step6FullContents
      [⟨"AAA".toList, "8-K".toList, "1".toList,
          "2025-01-06T00:00:00Z".toList, 1⟩,
        ⟨"BBB".toList, "8-K".toList, "2".toList,
          "2025-01-06T00:00:00Z".toList, 9⟩] =
      [⟨"AAA".toList, "8-K".toList, "1".toList,
          "2025-01-06T00:00:00Z".toList, 1⟩,
        ⟨"BBB".toList, "8-K".toList, "2".toList,
          "2025-01-06T00:00:00Z".toList, 9⟩] := by decide
  refine ⟨he, ?_⟩
  rw [he]
  intro hch
  rcases List.chain'_pair.mp hch with h | ⟨h, -⟩
  · simp only [gt_iff_lt] at h
    omega
  · simp only at h
    omega

/-- C10 amended: the three variants that sort - sec_only.py line 263,
grandmaster_sec_v23.py line 84, fetch_sec_only.py line 259 - order their
kept records descending lexicographically on the (score, filing timestamp)
pair before writing their JSON/CSV outputs, so there the sorted list is a
permutation of the kept records and every adjacent pair has the earlier
record scoring strictly higher, or scoring equal with a timestamp not
earlier; the fetch_sec_and_news.py variant, however, writes its deduped
kept records to step6_full.json in collection order, applying no sort (its
output is a sublist of the collected list). -/
theorem kept_rows_sorted_desc :
    (∀ rows : List Scored,
      (sortKeptRows rows).Perm rows
      ∧ List.Chain'
          (fun a b => a.score > b.score ∨ (a.score = b.score ∧ b.ts ≤ a.ts))
          (sortKeptRows rows))
    ∧ (∀ collected : List SecAndNews.NewsRec,
        (SecAndNews.step6FullContents collected).Sublist collected) := by
  constructor
  · intro rows
    constructor
    · exact List.perm_insertionSort _ rows
    · have h : List.Sorted (keyDescRel fun r : Scored => (r.score, r.ts))
          (sortKeptRows rows) :=
        List.sorted_insertionSort _ rows
      have h2 : List.Pairwise
          (fun a b : Scored =>
            a.score > b.score ∨ (a.score = b.score ∧ b.ts ≤ a.ts))
          (sortKeptRows rows) := by
        refine h.imp ?_
        intro a b hab
        rcases hab with h1 | ⟨h1, h2⟩
        · exact Or.inl h1
        · exact Or.inr ⟨h1.symm, h2⟩
      exact List.Pairwise.chain' h2
  · intro collected
    exact dedupAux_sublist collected []

/-- C2 counterexample: the cited `within_window` of
grandmaster_sec_v23.main is half-open, so an entry stamped exactly at the
window end is dropped by that variant's filter even with a tracked form,
refuting "an entry whose timestamp equals window.end exactly is retained"
for that cited code; the paginator's own closed-interval filter keeps the
same entry. -/
theorem v23_drops_window_end_entry :
    V23.strictFilter ["8-K".toList] 0 570 ⟨some 570, "8-K".toList⟩ = false
    ∧ SecOnly.keepsForProcessing 0 570 ⟨some 570, "8-K".toList⟩ = true := by
  constructor
  · decide
  · decide

/-- C2 amended: in the sec_only paginator an entry proceeds to enrichment
and scoring exactly when its normalized timestamp parsed and lies in the
closed interval from window start to window end and its form is tracked -
in particular a timestamp equal to the window end passes, since
utils_sec.within_window accepts its end point; the grandmaster_sec_v23
variant instead uses a half-open interval, accepting exactly the instants
at or after start and strictly before end. -/
theorem window_form_filter_characterization :
    (∀ (s e : Int) (ent : AtomEntry),
      SecOnly.keepsForProcessing s e ent = true ↔
        ∃ t, ent.time = some t ∧ s ≤ t ∧ t ≤ e ∧
          SecOnly.allowed_forms.contains ent.form = true)
    ∧ (∀ s e : Int, s ≤ e → UtilsSec.within_window e s e = true)
    ∧ (∀ s e t : Int, V23.within_window t s e = true ↔ (s ≤ t ∧ t < e)) := by
  refine ⟨?_, ?_, ?_⟩
  · intro s e ent
    match hent : ent.time with
    | none =>
      simp [SecOnly.keepsForProcessing, hent]
    | some t =>
      simp [SecOnly.keepsForProcessing, hent, UtilsSec.within_window,
        and_assoc]
  · intro s e hse
    simp [UtilsSec.within_window, hse]
  · intro s e t
    simp [V23.within_window]

/-- Witness for C2 at the concrete boundary instant: the paginator keeps
an 8-K filed exactly at the window end. -/
theorem window_form_filter_witness :
    (0:Int) ≤ 570
    ∧ UtilsSec.within_window 570 0 570 = true
    ∧ SecOnly.keepsForProcessing 0 570 ⟨some 570, "8-K".toList⟩ = true := by
  refine ⟨by norm_num, ?_, ?_⟩
  · exact window_form_filter_characterization.2.1 0 570 (by norm_num)
  · exact (window_form_filter_characterization.1 0 570
      ⟨some 570, "8-K".toList⟩).2
      ⟨570, rfl, by norm_num, by norm_num, by decide⟩

/-- The backward weekend-skipping loop lands on a non-weekend day, moves at
most two days, and skips only weekend days. -/
theorem skipBack_spec (d : Int) :
    isWeekend (skipBack d) = false ∧ d - 2 ≤ skipBack d ∧ skipBack d ≤ d ∧
    ∀ x, skipBack d < x → x ≤ d → isWeekend x = true := by
  have h0 : 0 ≤ d % 7 := Int.emod_nonneg d (by norm_num)
  have h1 : d % 7 < 7 := Int.emod_lt_of_pos d (by norm_num)
  simp only [skipBack, skipBackF]
  split_ifs <;>
    simp only [isWeekend, decide_eq_true_eq, decide_eq_false_iff_not,
      not_le] at * <;>
    refine ⟨by omega, by omega, by omega, ?_⟩ <;>
    intro x hx1 hx2 <;> omega

/-- C3 counterexample: the cited `compute_windows` of
scripts/util/time_utils.py takes its weekday branch on a Monday (day 7 of
our numbering): before the cutoff (08:00, minute 480) the returned end is
today's 09:30 cutoff, which lies in the future, violating "end <= now";
after the cutoff (minute 600) the returned start is exactly one calendar
day earlier - a Sunday cutoff instant - not the preceding Friday. -/
theorem compute_windows_weekday_counterexample :
    (7:Int) % 7 = 0
    ∧ isWeekend 7 = false
    ∧ (TimeUtils.compute_windows 7 480 true).primary_end = 1440 * 7 + 570
    ∧ 1440 * 7 + 480 < (TimeUtils.compute_windows 7 480 true).primary_end
    ∧ (TimeUtils.compute_windows 7 600 true).primary_start = 1440 * 6 + 570
    ∧ isWeekend 6 = true := by
  decide

/-- C3 amended: for the utils_sec resolver
`et_window_prev0930_to_latest0930` (business-day mode), for every instant
not on a weekend the returned end is the most recent cutoff instant on a
business day that is not in the future, the start is the cutoff of the
nearest earlier business day (everything strictly between start day and end
day is a weekend day), start < end always holds, and a Monday instant after
the cutoff resolves start to the preceding Friday, three days back.  (The
compute_windows weekday branch of scripts/util/time_utils.py instead uses
today's cutoff as end, possibly in the future, and one calendar day for the
start - see the counterexample.) -/
theorem et_window_business_day_resolution :
    ∀ day minute : Int, 0 ≤ minute → minute < 1440 → isWeekend day = false →
      1440 * (etWindowDays day minute).2 + cutoffMin ≤ 1440 * day + minute
      ∧ 1440 * (etWindowDays day minute).1 + cutoffMin <
          1440 * (etWindowDays day minute).2 + cutoffMin
      ∧ isWeekend (etWindowDays day minute).2 = false
      ∧ isWeekend (etWindowDays day minute).1 = false
      ∧ (∀ d : Int, isWeekend d = false →
          1440 * d + cutoffMin ≤ 1440 * day + minute →
          d ≤ (etWindowDays day minute).2)
      ∧ (∀ d : Int, (etWindowDays day minute).1 < d →
          d < (etWindowDays day minute).2 → isWeekend d = true)
      ∧ (day % 7 = 0 → cutoffMin ≤ minute →
          (etWindowDays day minute).2 = day
          ∧ (etWindowDays day minute).1 = day - 3) := by
  intro day minute hm0 hm1 hwd
  simp only [etWindowDays, prevBusinessDate, cutoffMin]
  set e0 : Int := if (570:Int) ≤ minute then day else day - 1 with he0
  obtain ⟨a1, a2, a3, a4⟩ := skipBack_spec e0
  obtain ⟨b1, b2, b3, b4⟩ := skipBack_spec (skipBack e0 - 1)
  simp only [isWeekend, decide_eq_true_eq, decide_eq_false_iff_not,
    not_le] at a1 a4 b1 b4 hwd
  have hskip : ∀ z : Int, z % 7 < 5 → skipBack z = z := by
    intro z hz
    obtain ⟨c1, c2, c3, c4⟩ := skipBack_spec z
    simp only [isWeekend, decide_eq_true_eq] at c4
    by_cases h : skipBack z = z
    · exact h
    · have := c4 z (by omega) le_rfl
      omega
  by_cases hc : (570:Int) ≤ minute
  · have he : e0 = day := by rw [he0, if_pos hc]
    have heq : skipBack e0 = day := by rw [he]; exact hskip day hwd
    refine ⟨by omega, by omega, ?_, ?_, ?_, ?_, ?_⟩
    · simp only [isWeekend, decide_eq_false_iff_not, not_le, heq]; omega
    · simp only [isWeekend, decide_eq_false_iff_not, not_le]; exact b1
    · intro d _ hle
      omega
    · intro d hgt hlt
      simp only [isWeekend, decide_eq_true_eq]
      exact b4 d hgt (by omega)
    · intro hmon _
      constructor
      · exact heq
      · omega
  · have he : e0 = day - 1 := by rw [he0, if_neg hc]
    refine ⟨by omega, by omega, ?_, ?_, ?_, ?_, ?_⟩
    · simp only [isWeekend, decide_eq_false_iff_not, not_le]; exact a1
    · simp only [isWeekend, decide_eq_false_iff_not, not_le]; exact b1
    · intro d hd hle
      simp only [isWeekend, decide_eq_false_iff_not, not_le] at hd
      by_cases hle2 : d ≤ skipBack e0
      · exact hle2
      · have := a4 d (by omega) (by omega)
        omega
    · intro d hgt hlt
      simp only [isWeekend, decide_eq_true_eq]
      exact b4 d hgt (by omega)
    · intro _ hcut
      omega

/-- Witness for C3 at a Monday (day 7) 10:00 instant: the window ends that
Monday and starts on the preceding Friday (day 4). -/
theorem et_window_business_day_witness :
    (0:Int) ≤ 600 ∧ (600:Int) < 1440 ∧ isWeekend 7 = false
    ∧ (etWindowDays 7 600).2 = 7 ∧ (etWindowDays 7 600).1 = 4 := by
  refine ⟨by norm_num, by norm_num, by decide, ?_, ?_⟩
  · exact ((et_window_business_day_resolution 7 600 (by norm_num)
      (by norm_num) (by decide)).2.2.2.2.2.2 (by decide)
      (by simp [cutoffMin])).1
  · have h := ((et_window_business_day_resolution 7 600 (by norm_num)
      (by norm_num) (by decide)).2.2.2.2.2.2 (by decide)
      (by simp [cutoffMin])).2
    omega

/-- A loop-body stop with reason `emptyStreak` only happens once the streak
counter has reached the configured threshold. -/
theorem loopStep_emptyStreak_bound (cfg : SecOnly.PagCfg)
    (o : Option (List AtomEntry)) (st st2 : SecOnly.PagState)
    (h : SecOnly.loopStep cfg o st =
      SecOnly.StepRes.stop st2 SecOnly.StopReason.emptyStreak) :
    cfg.max_empty_pages ≤ st2.empty_streak := by
  cases o with
  | none =>
    simp only [SecOnly.loopStep] at h
    split at h
    · exact absurd h (by simp)
    · split at h
      · rename_i hcond
        obtain ⟨h1, -⟩ := SecOnly.StepRes.stop.inj h
        rw [← h1]
        exact hcond
      · exact absurd h (by simp)
  | some entries =>
    simp only [SecOnly.loopStep] at h
    split at h
    · exact absurd h (by simp)
    · split at h
      · split at h
        · rename_i hcond
          obtain ⟨h1, -⟩ := SecOnly.StepRes.stop.inj h
          rw [← h1]
          exact hcond
        · exact absurd h (by simp)
      · split at h
        · split at h
          · exact absurd h (by simp)
          · split at h
            · exact absurd h (by simp)
            · exact absurd h (by simp)
        · exact absurd h (by simp)

/-- A loop-body stop with reason `budget` only happens once the page
counter has reached the attempt page budget. -/
theorem loopStep_budget_bound (cfg : SecOnly.PagCfg)
    (o : Option (List AtomEntry)) (st st2 : SecOnly.PagState)
    (h : SecOnly.loopStep cfg o st =
      SecOnly.StepRes.stop st2 SecOnly.StopReason.budget) :
    cfg.page_budget ≤ st2.this_pages := by
  cases o with
  | none =>
    simp only [SecOnly.loopStep] at h
    split at h
    · rename_i hcond
      obtain ⟨h1, -⟩ := SecOnly.StepRes.stop.inj h
      rw [← h1]
      exact hcond
    · split at h
      · exact absurd h (by simp)
      · exact absurd h (by simp)
  | some entries =>
    simp only [SecOnly.loopStep] at h
    split at h
    · rename_i hcond
      obtain ⟨h1, -⟩ := SecOnly.StepRes.stop.inj h
      rw [← h1]
      exact hcond
    · split at h
      · split at h
        · exact absurd h (by simp)
        · exact absurd h (by simp)
      · split at h
        · split at h
          · exact absurd h (by simp)
          · split at h
            · exact absurd h (by simp)
            · exact absurd h (by simp)
        · exact absurd h (by simp)

/-- The whole attempt stops with reason `emptyStreak` only when the final
streak counter has reached the threshold. -/
theorem runLoopAux_emptyStreak_bound (cfg : SecOnly.PagCfg)
    (feed : Nat → Option (List AtomEntry)) :
    ∀ fuel p st,
      (SecOnly.runLoopAux cfg feed fuel p st).2 =
        SecOnly.StopReason.emptyStreak →
      cfg.max_empty_pages ≤
        (SecOnly.runLoopAux cfg feed fuel p st).1.empty_streak := by
  intro fuel
  induction fuel with
  | zero =>
    intro p st h
    exact absurd h (by simp [SecOnly.runLoopAux])
  | succ n ih =>
    intro p st
    simp only [SecOnly.runLoopAux]
    cases hstep : SecOnly.loopStep cfg (feed p) st with
    | stop st2 r =>
      intro h
      simp only at h
      cases h
      exact loopStep_emptyStreak_bound cfg (feed p) st st2 hstep
    | next st2 =>
      exact ih (p + 1) st2

/-- The whole attempt stops with reason `budget` only when the final page
counter has reached the budget. -/
theorem runLoopAux_budget_bound (cfg : SecOnly.PagCfg)
    (feed : Nat → Option (List AtomEntry)) :
    ∀ fuel p st,
      (SecOnly.runLoopAux cfg feed fuel p st).2 = SecOnly.StopReason.budget →
      cfg.page_budget ≤ (SecOnly.runLoopAux cfg feed fuel p st).1.this_pages := by
  intro fuel
  induction fuel with
  | zero =>
    intro p st h
    exact absurd h (by simp [SecOnly.runLoopAux])
  | succ n ih =>
    intro p st
    simp only [SecOnly.runLoopAux]
    cases hstep : SecOnly.loopStep cfg (feed p) st with
    | stop st2 r =>
      intro h
      simp only at h
      cases h
      exact loopStep_budget_bound cfg (feed p) st st2 hstep
    | next st2 =>
      exact ih (p + 1) st2

/-- C4 counterexample: a failed page is not skipped - the loop re-requests
the same offset on its next iteration.  With a feed whose first fetch fails
and whose second succeeds, the two requests go to offset 0 and offset 0
again (were the failed page skipped, the second request would use a
different offset), refuting "the failed page is skipped ... and the scan
continues with the next page". -/
theorem failed_page_retried_at_same_offset :
    ((SecOnly.runLoop ⟨2, 10, 5, false, 200, 0⟩
        (fun n => if n = 0 then none
          else some [⟨some 100, "8-K".toList⟩])).1.fetched_offsets = [0, 0])
    ∧ (SecOnly.runLoop ⟨2, 10, 5, false, 200, 0⟩
        (fun n => if n = 0 then none
          else some [⟨some 100, "8-K".toList⟩])).1.atom_fetch_errors = 1 := by
  constructor
  · decide
  · decide

/-- C4 amended: a page whose fetch fails after the retry cap never raises
and never aborts the attempt by itself - the failure is counted in the
`atom_fetch_errors` statistic and the loop carries on, re-requesting the
same offset on its next iteration (the failed page is retried, not
skipped); the attempt stops only when the consecutive failure/empty streak
reaches the `max_empty_pages` threshold or the page budget (or the
`max_pages` range) is exhausted, and each stop is a returned reason, not an
exception. -/
theorem failed_page_never_aborts_alone :
    (∀ (cfg : SecOnly.PagCfg) (st : SecOnly.PagState),
      st.this_pages < cfg.page_budget →
      st.empty_streak + 1 < cfg.max_empty_pages →
      SecOnly.loopStep cfg none st = SecOnly.StepRes.next
        { st with
          pages_fetched := st.pages_fetched + 1
          this_pages := st.this_pages + 1
          fetched_offsets := st.fetched_offsets ++ [st.start_idx]
          atom_fetch_errors := st.atom_fetch_errors + 1
          empty_streak := st.empty_streak + 1 })
    ∧ (∀ cfg feed fuel p st,
        (SecOnly.runLoopAux cfg feed fuel p st).2 =
          SecOnly.StopReason.emptyStreak →
        cfg.max_empty_pages ≤
          (SecOnly.runLoopAux cfg feed fuel p st).1.empty_streak)
    ∧ (∀ cfg feed fuel p st,
        (SecOnly.runLoopAux cfg feed fuel p st).2 =
          SecOnly.StopReason.budget →
        cfg.page_budget ≤
          (SecOnly.runLoopAux cfg feed fuel p st).1.this_pages) := by
  refine ⟨?_, ?_, ?_⟩
  · intro cfg st h1 h2
    have hbudget : ¬ cfg.page_budget ≤ st.this_pages := by omega
    have hstreak : ¬ cfg.max_empty_pages ≤ st.empty_streak + 1 := by omega
    simp [SecOnly.loopStep, if_neg hbudget, if_neg hstreak]
  · intro cfg feed fuel p st
    exact runLoopAux_emptyStreak_bound cfg feed fuel p st
  · intro cfg feed fuel p st
    exact runLoopAux_budget_bound cfg feed fuel p st

/-- Witness for C4: from the fresh state under a small concrete
configuration, one failed fetch is counted and the loop continues at the
same offset. -/
theorem failed_page_never_aborts_witness :
    SecOnly.initState.this_pages <
      (⟨10, 5, 3, false, 0, 0⟩ : SecOnly.PagCfg).page_budget
    ∧ SecOnly.loopStep ⟨10, 5, 3, false, 0, 0⟩ none SecOnly.initState =
      SecOnly.StepRes.next
        { SecOnly.initState with
          pages_fetched := 1
          this_pages := 1
          fetched_offsets := [0]
          atom_fetch_errors := 1
          empty_streak := 1 } := by
  constructor
  · decide
  · have h := failed_page_never_aborts_alone.1 ⟨10, 5, 3, false, 0, 0⟩
      SecOnly.initState (by decide) (by decide)
    simpa using h

/-- One step of the per-entry bookkeeping of `sec_only.main` preserves the
raw/kept invariants: kept rows sit in the raw rows, kept rows are unbanned,
and every raw row is accounted for either as kept or in one of the two ban
counters. -/
theorem processOne_inv (bp : List (List Char)) (bx : List Int)
    (bk : List (List (List Char))) (st : SecOnly.RunState)
    (r : SecOnly.SecRec)
    (h1 : ∀ x, x ∈ st.kept → x ∈ st.raw)
    (h2 : ∀ x, x ∈ st.kept → SecOnly.recBanned bp bx bk x = false)
    (h3 : st.raw.length = st.kept.length + st.banned_sic + st.banned_kw) :
    (∀ x, x ∈ (SecOnly.processOne bp bx bk st r).kept →
      x ∈ (SecOnly.processOne bp bx bk st r).raw)
    ∧ (∀ x, x ∈ (SecOnly.processOne bp bx bk st r).kept →
        SecOnly.recBanned bp bx bk x = false)
    ∧ (SecOnly.processOne bp bx bk st r).raw.length =
        (SecOnly.processOne bp bx bk st r).kept.length +
          (SecOnly.processOne bp bx bk st r).banned_sic +
          (SecOnly.processOne bp bx bk st r).banned_kw := by
  unfold SecOnly.processOne
  split_ifs with hseen hban hsic
  · exact ⟨h1, h2, h3⟩
  · refine ⟨?_, h2, ?_⟩
    · intro x hx
      exact List.mem_append_left _ (h1 x hx)
    · simp only [List.length_append, List.length_singleton]
      omega
  · refine ⟨?_, h2, ?_⟩
    · intro x hx
      exact List.mem_append_left _ (h1 x hx)
    · simp only [List.length_append, List.length_singleton]
      omega
  · refine ⟨?_, ?_, ?_⟩
    · intro x hx
      rcases List.mem_append.1 hx with hx | hx
      · exact List.mem_append_left _ (h1 x hx)
      · exact List.mem_append_right _ hx
    · intro x hx
      rcases List.mem_append.1 hx with hx | hx
      · exact h2 x hx
      · simp only [List.mem_singleton] at hx
        subst hx
        simpa using hban
    · simp only [List.length_append, List.length_singleton]
      omega

/-- The raw/kept invariants hold after folding the per-entry bookkeeping
over any list of records, from any state satisfying them. -/
theorem processFold_inv (bp : List (List Char)) (bx : List Int)
    (bk : List (List (List Char))) :
    ∀ (rs : List SecOnly.SecRec) (st : SecOnly.RunState),
      (∀ x, x ∈ st.kept → x ∈ st.raw) →
      (∀ x, x ∈ st.kept → SecOnly.recBanned bp bx bk x = false) →
      st.raw.length = st.kept.length + st.banned_sic + st.banned_kw →
      (∀ x, x ∈ (rs.foldl (SecOnly.processOne bp bx bk) st).kept →
        x ∈ (rs.foldl (SecOnly.processOne bp bx bk) st).raw)
      ∧ (∀ x, x ∈ (rs.foldl (SecOnly.processOne bp bx bk) st).kept →
          SecOnly.recBanned bp bx bk x = false)
      ∧ (rs.foldl (SecOnly.processOne bp bx bk) st).raw.length =
          (rs.foldl (SecOnly.processOne bp bx bk) st).kept.length +
            (rs.foldl (SecOnly.processOne bp bx bk) st).banned_sic +
            (rs.foldl (SecOnly.processOne bp bx bk) st).banned_kw := by
  intro rs
  induction rs with
  | nil =>
    intro st h1 h2 h3
    exact ⟨h1, h2, h3⟩
  | cons r rs ih =>
    intro st h1 h2 h3
    simp only [List.foldl_cons]
    obtain ⟨g1, g2, g3⟩ := processOne_inv bp bx bk st r h1 h2 h3
    exact ih (SecOnly.processOne bp bx bk st r) g1 g2 g3

/-- C8: in `sec_only.main` every kept row also sits in the raw rows, kept
rows are never ban-filtered, and the raw count splits exactly into the kept
count plus the two ban counters (so every banned record is in the raw
output and counted in the ban statistics while excluded from the kept
snapshot).  In `grandmaster_sec_v23.main`, however, the file at the raw
path is written from the kept list itself, so a banned enriched record
(here a SIC-6022 bank) appears in neither the raw nor the snapshot output -
the code contradicts this invariant. -/
theorem banned_rows_in_raw_not_kept :
    (∀ bp bx bk rs,
      (∀ x, x ∈ (SecOnly.processAll bp bx bk rs).kept →
        x ∈ (SecOnly.processAll bp bx bk rs).raw)
      ∧ (∀ x, x ∈ (SecOnly.processAll bp bx bk rs).kept →
          SecOnly.recBanned bp bx bk x = false)
      ∧ (SecOnly.processAll bp bx bk rs).raw.length =
          (SecOnly.processAll bp bx bk rs).kept.length +
            (SecOnly.processAll bp bx bk rs).banned_sic +
            (SecOnly.processAll bp bx bk rs).banned_kw)
    ∧ (V23.recBanned ⟨"Acme Bancorp".toList, some 6022,
        "State commercial banks".toList, 3, "2025-01-06T10:00:00".toList⟩
        = true
      ∧ V23.rawFileContents [⟨"Acme Bancorp".toList, some 6022,
          "State commercial banks".toList, 3, "2025-01-06T10:00:00".toList⟩]
        = []
      ∧ V23.snapshotContents [⟨"Acme Bancorp".toList, some 6022,
          "State commercial banks".toList, 3, "2025-01-06T10:00:00".toList⟩]
        = []) := by
  constructor
  · intro bp bx bk rs
    exact processFold_inv bp bx bk rs _ (by simp) (by simp) (by simp)
  · refine ⟨by decide, by decide, by decide⟩

/-- Witness for C8: an unbanned record processed by the sec_only
bookkeeping lands in both the kept and the raw rows. -/
theorem banned_rows_in_raw_not_kept_witness :
    (⟨"k1".toList, none, "clean text".toList⟩ : SecOnly.SecRec) ∈
      (SecOnly.processAll [] [] []
        [⟨"k1".toList, none, "clean text".toList⟩]).kept
    ∧ (⟨"k1".toList, none, "clean text".toList⟩ : SecOnly.SecRec) ∈
      (SecOnly.processAll [] [] []
        [⟨"k1".toList, none, "clean text".toList⟩]).raw := by
  constructor
  · decide
  · exact (banned_rows_in_raw_not_kept.1 [] [] []
      [⟨"k1".toList, none, "clean text".toList⟩]).1 _ (by decide)

end Theorems
